import Mathlib

/-!
Verification of the RPAFlow task-orchestration specification against the
repository.  The repository ships the React dashboard (`frontend/src`): the
`Task` / `TaskCreateData` interfaces and API surface in `services/api.ts`, the
task list, create-task form and retry/cancel actions in `components/Layout.tsx`.
The orchestration core itself (scheduler, worker pool, retry state machine,
proxy pool) is described by the specification but its code is not part of the
repository, so those operations are modelled here from the specification's
words and checked against the claims; definitions taken from the dashboard
sources are modelled from the TypeScript directly.
-/

namespace RPAFlow

/-- Task lifecycle statuses, from the `status` field of the `Task` interface in
`frontend/src/services/api.ts` and the status badges rendered in
`components/Layout.tsx` (`pending`, `running`, `success`, `failed`,
`cancelled`). -/
inductive TaskStatus where
  | pending
  | running
  | success
  | failed
  | cancelled
deriving DecidableEq, Repr

/-- A task record, following the `Task` interface of
`frontend/src/services/api.ts` and the data model of the specification (§3).
Timestamps are a logical clock (`Nat`); the opaque string id is modelled as a
natural number drawn from a fresh-id counter; the opaque `config` map and the
derived `duration` field are omitted (no claim mentions them);
`cancel_requested` is the cooperative-cancellation flag of spec §5. -/
structure Task where
  id : Nat
  name : String
  target_url : String
  task_type : String
  priority : Int
  status : TaskStatus
  retry_count : Nat
  max_retries : Nat
  worker_id : Option Nat
  created_at : Nat
  started_at : Option Nat
  completed_at : Option Nat
  error_message : Option String
  items_scraped : Nat
  cancel_requested : Bool
deriving DecidableEq, Repr

/-- A status is terminal when it is `success`, `failed` or `cancelled`
(spec §4.3 terminal states, §8). -/
def isTerminal (st : TaskStatus) : Bool :=
  match st with
  | TaskStatus.success => true
  | TaskStatus.failed => true
  | TaskStatus.cancelled => true
  | _ => false

/-- Decision taken by the retry state machine on a failed attempt: either
re-enqueue (`toRetry`, carrying the new retry count and the backoff delay) or
give up (`toFallback`). -/
inductive FailDecision where
  | toRetry (retry_count : Nat) (backoff : Nat)
  | toFallback
deriving DecidableEq, Repr

/-- Modelled from the spec: the retry backoff of §4.3, `base_delay * 2^retry_count`
capped at a maximum; the retry state machine is not in the repository sources. -/
def backoffDelay (base_delay cap retry_count : Nat) : Nat :=
  min (base_delay * 2 ^ retry_count) cap

/-- Modelled from the spec: the pure `FAIL` transition of the retry state
machine (§4.3): `FAIL → RETRY` if `retry_count < max_retries`, incrementing the
count and computing the capped exponential backoff, else `FAIL → FALLBACK`. -/
def onFail (base_delay cap retry_count max_retries : Nat) : FailDecision :=
  if retry_count < max_retries then
    FailDecision.toRetry (retry_count + 1) (backoffDelay base_delay cap retry_count)
  else
    FailDecision.toFallback

/-- Observable outcome of running a task to completion through the retry
machine: final status, final retry count, number of attempts made, and the
last error message. -/
structure RunResult where
  status : TaskStatus
  retry_count : Nat
  attempts : Nat
  error_message : Option String
deriving DecidableEq, Repr

/-- Modelled from the spec: the worker loop of §4.2 driving the retry state
machine of §4.3 for a single task, with the executor abstracted as a function
from the attempt index to its outcome (`Except` error-message or items
scraped).  `fuel` bounds the recursion; it is instantiated with
`max_retries + 1`, the maximal number of attempts. -/
def runFrom (outcome : Nat → Except String Nat) (max_retries : Nat) :
    Nat → Nat → Nat → RunResult
  | 0, attempt, rc =>
      { status := TaskStatus.failed, retry_count := rc, attempts := attempt,
        error_message := none }
  | Nat.succ fuel, attempt, rc =>
      match outcome attempt with
      | Except.ok _ =>
          { status := TaskStatus.success, retry_count := rc,
            attempts := attempt + 1, error_message := none }
      | Except.error e =>
          match onFail 1 60 rc max_retries with
          | FailDecision.toRetry rc2 _ => runFrom outcome max_retries fuel (attempt + 1) rc2
          | FailDecision.toFallback =>
              { status := TaskStatus.failed, retry_count := rc,
                attempts := attempt + 1, error_message := some e }

/-- Run a task from scratch: attempt 0, retry count 0, fuel for the full retry
budget. -/
def runTask (outcome : Nat → Except String Nat) (max_retries : Nat) : RunResult :=
  runFrom outcome max_retries (max_retries + 1) 0 0

/-- An executor that fails on every attempt, with a distinct message per
attempt so the preserved error is identifiable. -/
def alwaysFail : Nat → Except String Nat :=
  fun n => Except.error (String.append "fail" (toString n))

/-- An executor that times out on the first two attempts and succeeds on the
third (spec §8 scenario). -/
def failTwice : Nat → Except String Nat :=
  fun n => if n < 2 then Except.error "timeout" else Except.ok 5

/-- Modelled from the spec: the priority-queue key order of §4.1/§4.2 — task
`a` is dispatched no later than task `b` when `a` has strictly higher priority,
or equal priority and an earlier-or-equal `created_at` (FIFO among equal
priorities). -/
def keyLE (a b : Task) : Bool :=
  decide (b.priority < a.priority) ||
    (decide (a.priority = b.priority) && decide (a.created_at ≤ b.created_at))

/-- Propositional form of `keyLE`, used for `List.Pairwise` sortedness. -/
def keyRel (a b : Task) : Prop := keyLE a b = true

/-- Modelled from the spec: insertion into the scheduler's priority queue
(§4.1), keeping the queue sorted by `(priority desc, created_at asc)`; the
scheduler is not in the repository sources. -/
def enqueue (t : Task) : List Task → List Task
  | [] => [t]
  | u :: us => if keyLE t u then t :: u :: us else u :: enqueue t us

/-- Modelled from the spec: `next()` of §4.1 — removes and returns the
front task of the sorted queue; the empty queue yields `none`, a normal
empty-result signal rather than an error. -/
def nextTask : List Task → Option (Task × List Task)
  | [] => none
  | t :: ts => some (t, ts)

/-- A fresh pending task with the given id, priority and creation time, used
for concrete scheduling scenarios. -/
def mkPending (id : Nat) (p : Int) (c : Nat) : Task :=
  { id := id, name := "t", target_url := "https://example.com",
    task_type := "scrape", priority := p, status := TaskStatus.pending,
    retry_count := 0, max_retries := 3, worker_id := none, created_at := c,
    started_at := none, completed_at := none, error_message := none,
    items_scraped := 0, cancel_requested := false }

/-- Payload of a task submission, following the `TaskCreateData` interface of
`frontend/src/services/api.ts` (optional fields modelled by the concrete
values the create-task form always supplies); `priority` and `max_retries` are
signed so that the `max_retries ≥ 0` validation of spec §4.1 is meaningful. -/
structure TaskCreateData where
  name : String
  target_url : String
  task_type : String
  priority : Int
  max_retries : Int
deriving DecidableEq, Repr

/-- Lower bound of the valid priority range: the `min="0"` attribute of the
priority input in `CreateTaskModal` (`components/Layout.tsx`). -/
def priorityLo : Int := 0

/-- Upper bound of the valid priority range: the `max="100"` attribute of the
priority input in `CreateTaskModal` (`components/Layout.tsx`). -/
def priorityHi : Int := 100

/-- Modelled from the spec: submission validation of §4.1 — `max_retries ≥ 0`,
`priority` within a bounded range (instantiated with the dashboard form's
bounds 0..100), `target_url` non-empty. -/
def validCreate (d : TaskCreateData) : Bool :=
  decide (0 ≤ d.max_retries) && decide (priorityLo ≤ d.priority) &&
    decide (d.priority ≤ priorityHi) && decide (¬ d.target_url = "")

/-- Error raised on an invalid submission (spec §7 taxonomy). -/
inductive SubmitError where
  | validationError
deriving DecidableEq, Repr

/-- Scheduler state: the sorted pending queue, the fresh-id counter and the
logical clock. -/
structure SchedState where
  queue : List Task
  next_id : Nat
  now : Nat
deriving DecidableEq, Repr

/-- The task record created for an accepted submission: fresh id, status
`pending`, zero retries, creation timestamp (spec §4.1). -/
def newTask (id now : Nat) (d : TaskCreateData) : Task :=
  { id := id, name := d.name, target_url := d.target_url,
    task_type := d.task_type, priority := d.priority,
    status := TaskStatus.pending, retry_count := 0,
    max_retries := d.max_retries.toNat, worker_id := none, created_at := now,
    started_at := none, completed_at := none, error_message := none,
    items_scraped := 0, cancel_requested := false }

/-- Modelled from the spec: `submit(task)` of §4.1 — validates the payload,
then either enqueues a fresh `pending` task and returns it, or fails
synchronously with a `ValidationError`, leaving the scheduler state
unchanged. -/
def submit (s : SchedState) (d : TaskCreateData) :
    Except SubmitError Task × SchedState :=
  if validCreate d then
    let t := newTask s.next_id s.now d
    (Except.ok t,
      { queue := enqueue t s.queue, next_id := s.next_id + 1, now := s.now + 1 })
  else
    (Except.error SubmitError.validationError, s)

/-- A proxy record, following the proxy rows rendered by the `Proxies`
dashboard component (`address`, `port`, `country`, `is_healthy`,
`response_time`, `success_rate`, `total_requests`) and spec §3;
`consecutive_failures` is the failure streak of spec §4.4, and latencies are
in integral milliseconds. -/
structure Proxy where
  address : String
  port : Nat
  country : Option String
  is_healthy : Bool
  response_time : Nat
  success_rate : Nat
  total_requests : Nat
  consecutive_failures : Nat
deriving DecidableEq, Repr

/-- Modelled from the spec: the rotation weight of §4.4,
`success_rate / (1 + response_time)`, scaled to stay integral. -/
def weightOf (p : Proxy) : Nat :=
  p.success_rate * 1000 / (1 + p.response_time)

/-- Modelled from the spec: a weighted-random draw among candidates, abstracted
over the random value `r`: walk the cumulative weights and return the proxy
whose weight interval contains `r`, the last candidate catching any overflow. -/
def pickWeighted : List Proxy → Nat → Option Proxy
  | [], _ => none
  | [p], _ => some p
  | p :: q :: ps, r =>
      if r < weightOf p then some p else pickWeighted (q :: ps) (r - weightOf p)

/-- Error raised when no healthy proxy is available and proxy use is mandatory
(spec §4.4, §7). -/
inductive ProxyError where
  | noHealthyProxy
deriving DecidableEq, Repr

/-- Modelled from the spec: `acquire()` of §4.4 — weighted random among the
currently healthy proxies, excluding the proxy used by the task's immediately
preceding attempt when another healthy candidate exists; fails with
`NoHealthyProxyError` when zero healthy proxies exist and proxy use is
mandatory, and returns `none` (run without proxy) when proxies are optional. -/
def acquire (pool : List Proxy) (excluded : Option Proxy) (mandatory : Bool)
    (r : Nat) : Except ProxyError (Option Proxy) :=
  match pool.filter fun p => p.is_healthy with
  | [] =>
      if mandatory then Except.error ProxyError.noHealthyProxy
      else Except.ok none
  | h :: hs =>
      match excluded with
      | none => Except.ok (pickWeighted (h :: hs) r)
      | some e =>
          match (h :: hs).filter fun p => decide (¬ p = e) with
          | [] => Except.ok (pickWeighted (h :: hs) r)
          | c :: cs => Except.ok (pickWeighted (c :: cs) r)

/-- Modelled from the spec: `report(proxy, outcome, latency)` of §4.4 —
updates `response_time` (moving average), `success_rate`, `total_requests` and
the consecutive-failure streak, and marks the proxy unhealthy once the streak
reaches the configurable `threshold`; health is not restored by `report`, only
by a probe. -/
def report (threshold : Nat) (p : Proxy) (ok : Bool) (latency : Nat) : Proxy :=
  if ok then
    { p with total_requests := p.total_requests + 1,
             consecutive_failures := 0,
             response_time := (p.response_time + latency) / 2,
             success_rate := (p.success_rate + 100) / 2 }
  else
    { p with total_requests := p.total_requests + 1,
             consecutive_failures := p.consecutive_failures + 1,
             response_time := (p.response_time + latency) / 2,
             success_rate := p.success_rate / 2,
             is_healthy :=
               if threshold ≤ p.consecutive_failures + 1 then false
               else p.is_healthy }

/-- Report `n` consecutive failures to a proxy. -/
def iterFail (threshold : Nat) : Nat → Proxy → Proxy
  | 0, p => p
  | Nat.succ n, p => iterFail threshold n (report threshold p false 0)

/-- Modelled from the spec: a passive health check or cooldown probe (§4.4);
a successful probe restores `is_healthy` and clears the failure streak. -/
def probe (p : Proxy) (ok : Bool) : Proxy :=
  if ok then { p with is_healthy := true, consecutive_failures := 0 } else p

/-- State of the orchestration engine: the task table, the worker slots (an
occupied slot holds the id of its task, spec §3 Worker Slot), the fresh-id
counter and the logical clock.  The pending queue's ordering is kept abstract
here (any pending task may be dispatched), which only enlarges the set of
reachable states the invariants are proved over. -/
structure SysState where
  tasks : List Task
  slots : List (Option Nat)
  next_id : Nat
  now : Nat
deriving DecidableEq, Repr

/-- The initial engine state for a worker pool of capacity `n`: no tasks, all
slots idle (spec §4.2). -/
def initState (n : Nat) : SysState :=
  { tasks := [], slots := List.replicate n none, next_id := 0, now := 0 }

/-- Update the task with the given id in the task table, leaving the other
tasks unchanged. -/
def updTask (ts : List Task) (id : Nat) (f : Task → Task) : List Task :=
  ts.map fun t => if t.id = id then f t else t

/-- Look up a task by id. -/
def getTask (s : SysState) (id : Nat) : Option Task :=
  s.tasks.find? fun t => decide (t.id = id)

/-- The status of the task with the given id, if any. -/
def statusOf (s : SysState) (id : Nat) : Option TaskStatus :=
  (getTask s id).map Task.status

/-- The worker slot of the task with the given id, if any. -/
def workerOf (s : SysState) (id : Nat) : Option (Option Nat) :=
  (getTask s id).map Task.worker_id

/-- Whether the task with the given id still has retry budget
(`retry_count < max_retries`). -/
def canRetry (s : SysState) (id : Nat) : Option Bool :=
  (getTask s id).map fun t => decide (t.retry_count < t.max_retries)

/-- Whether cooperative cancellation has been requested for the task. -/
def cancelReqOf (s : SysState) (id : Nat) : Option Bool :=
  (getTask s id).map Task.cancel_requested

/-- Modelled from the spec: submission (§4.1) at the engine level — the
validated payload becomes a fresh `pending` task. -/
def submitStep (s : SysState) (d : TaskCreateData) : SysState :=
  { s with tasks := newTask s.next_id s.now d :: s.tasks,
           next_id := s.next_id + 1, now := s.now + 1 }

/-- Modelled from the spec: dispatch (§4.2) — the pending task transitions to
`running`, records its worker slot and `started_at`, and the idle slot `i`
takes the task. -/
def dispatchStep (s : SysState) (id i : Nat) : SysState :=
  { s with
      tasks := updTask s.tasks id fun t =>
        { t with status := TaskStatus.running, worker_id := some i,
                 started_at := some s.now },
      slots := s.slots.set i (some id), now := s.now + 1 }

/-- Modelled from the spec: successful completion (§4.2) — the task becomes
`success`, records `completed_at` and `items_scraped`, and its slot is
freed. -/
def completeSuccessStep (s : SysState) (id i items : Nat) : SysState :=
  { s with
      tasks := updTask s.tasks id fun t =>
        { t with status := TaskStatus.success, worker_id := none,
                 completed_at := some s.now, items_scraped := items },
      slots := s.slots.set i none, now := s.now + 1 }

/-- Modelled from the spec: a retryable failure with remaining budget
(`FAIL → RETRY`, §4.3) — the retry count is incremented, the error recorded,
the task re-enters `pending` and its slot is freed. -/
def failRetryStep (s : SysState) (id i : Nat) (e : String) : SysState :=
  { s with
      tasks := updTask s.tasks id fun t =>
        { t with status := TaskStatus.pending, worker_id := none,
                 retry_count := t.retry_count + 1, error_message := some e },
      slots := s.slots.set i none, now := s.now + 1 }

/-- Modelled from the spec: failure with exhausted budget (`FAIL → FALLBACK`,
§4.3) — the task is marked `failed` with the last error recorded, and its slot
is freed. -/
def failFallbackStep (s : SysState) (id i : Nat) (e : String) : SysState :=
  { s with
      tasks := updTask s.tasks id fun t =>
        { t with status := TaskStatus.failed, worker_id := none,
                 completed_at := some s.now, error_message := some e },
      slots := s.slots.set i none, now := s.now + 1 }

/-- Modelled from the spec: `cancel(id)` on a `pending` task (§4.1) — it
transitions directly to `cancelled`. -/
def cancelPendingStep (s : SysState) (id : Nat) : SysState :=
  { s with
      tasks := updTask s.tasks id fun t =>
        { t with status := TaskStatus.cancelled, completed_at := some s.now },
      now := s.now + 1 }

/-- Modelled from the spec: `cancel(id)` on a `running` task (§4.1, §5) — the
task is marked for cooperative cancellation and keeps running until the worker
acknowledges. -/
def cancelRunningStep (s : SysState) (id : Nat) : SysState :=
  { s with
      tasks := updTask s.tasks id fun t => { t with cancel_requested := true },
      now := s.now + 1 }

/-- Modelled from the spec: the worker acknowledges a requested cancellation
(§5) — the task becomes `cancelled` and its slot is freed. -/
def ackCancelStep (s : SysState) (id i : Nat) : SysState :=
  { s with
      tasks := updTask s.tasks id fun t =>
        { t with status := TaskStatus.cancelled, worker_id := none,
                 completed_at := some s.now },
      slots := s.slots.set i none, now := s.now + 1 }

/-- Modelled from the spec: the backend of the dashboard's retry action
(`tasksApi.retry` in `frontend/src/services/api.ts`, offered by the task list
in `components/Layout.tsx` exactly for tasks with status `failed`) is not in
the repository sources; re-submitting a failed task gives it status `pending`
again, per the submission/requeue convention of §4.1. -/
def manualRetryStep (s : SysState) (id : Nat) : SysState :=
  { s with
      tasks := updTask s.tasks id fun t => { t with status := TaskStatus.pending },
      now := s.now + 1 }

/-- Modelled from the spec: forced shutdown abandonment (§4.5) — a still
running task is marked `failed` with a shutdown error and its slot is freed. -/
def abandonStep (s : SysState) (id i : Nat) : SysState :=
  { s with
      tasks := updTask s.tasks id fun t =>
        { t with status := TaskStatus.failed, worker_id := none,
                 completed_at := some s.now,
                 error_message := some "shutdown abandoned" },
      slots := s.slots.set i none, now := s.now + 1 }

/-- Modelled from the spec: one operation of the orchestration engine
(submission, dispatch, completion, the two retry-machine outcomes,
cancellation and its acknowledgment, the dashboard's manual retry, and
shutdown abandonment), with its enabling conditions. -/
inductive Step (s : SysState) : SysState → Prop where
  | submit (d : TaskCreateData) (hv : validCreate d = true) :
      Step s (submitStep s d)
  | dispatch (id i : Nat) (hst : statusOf s id = some TaskStatus.pending)
      (hslot : s.slots.get? i = some none) :
      Step s (dispatchStep s id i)
  | completeSuccess (id i items : Nat)
      (hst : statusOf s id = some TaskStatus.running)
      (hw : workerOf s id = some (some i))
      (hslot : s.slots.get? i = some (some id)) :
      Step s (completeSuccessStep s id i items)
  | failRetry (id i : Nat) (e : String)
      (hst : statusOf s id = some TaskStatus.running)
      (hw : workerOf s id = some (some i))
      (hslot : s.slots.get? i = some (some id))
      (hrc : canRetry s id = some true) :
      Step s (failRetryStep s id i e)
  | failFallback (id i : Nat) (e : String)
      (hst : statusOf s id = some TaskStatus.running)
      (hw : workerOf s id = some (some i))
      (hslot : s.slots.get? i = some (some id))
      (hrc : canRetry s id = some false) :
      Step s (failFallbackStep s id i e)
  | cancelPending (id : Nat) (hst : statusOf s id = some TaskStatus.pending) :
      Step s (cancelPendingStep s id)
  | cancelRunning (id : Nat) (hst : statusOf s id = some TaskStatus.running) :
      Step s (cancelRunningStep s id)
  | ackCancel (id i : Nat) (hst : statusOf s id = some TaskStatus.running)
      (hw : workerOf s id = some (some i))
      (hslot : s.slots.get? i = some (some id))
      (hcr : cancelReqOf s id = some true) :
      Step s (ackCancelStep s id i)
  | manualRetry (id : Nat) (hst : statusOf s id = some TaskStatus.failed) :
      Step s (manualRetryStep s id)
  | abandon (id i : Nat) (hst : statusOf s id = some TaskStatus.running)
      (hw : workerOf s id = some (some i))
      (hslot : s.slots.get? i = some (some id)) :
      Step s (abandonStep s id i)

/-- The states of the engine reachable from the initial state of a capacity-`n`
worker pool. -/
inductive Reachable (n : Nat) : SysState → Prop where
  | init : Reachable n (initState n)
  | step {s s' : SysState} : Reachable n s → Step s s' → Reachable n s'

/-- The ids of the tasks in a task table. -/
def idsOf (ts : List Task) : List Nat := ts.map Task.id

/-- One if the task is `running`, zero otherwise. -/
def runFlag (t : Task) : Nat := if t.status = TaskStatus.running then 1 else 0

/-- Number of tasks with status `running`. -/
def countRunning (ts : List Task) : Nat :=
  (ts.filter fun t => decide (t.status = TaskStatus.running)).length

/-- Number of occupied worker slots. -/
def countBusy (slots : List (Option Nat)) : Nat :=
  (slots.filter fun o => o.isSome).length

/-- The inductive invariant of the engine: retry counts within budget, task
ids distinct and below the fresh-id counter, exactly one occupied slot per
running task, and a fixed pool capacity. -/
def Inv (n : Nat) (s : SysState) : Prop :=
  (∀ t ∈ s.tasks, t.retry_count ≤ t.max_retries) ∧
  (idsOf s.tasks).Nodup ∧
  (∀ x ∈ idsOf s.tasks, x < s.next_id) ∧
  countRunning s.tasks = countBusy s.slots ∧
  s.slots.length = n

/-- Modelled from the spec: the task-level effect of `cancel(id)` (§4.1) — a
`pending` task transitions directly to `cancelled`, a `running` task is marked
for cooperative cancellation, and any other status is left untouched. -/
def cancelTask (now : Nat) (t : Task) : Task :=
  match t.status with
  | TaskStatus.pending =>
      { t with status := TaskStatus.cancelled, completed_at := some now }
  | TaskStatus.running => { t with cancel_requested := true }
  | _ => t

/-- Modelled from the spec: the facade `cancel(id)` operation (§4.1, §4.5),
applying the task-level cancellation to the addressed task. -/
def cancelOp (s : SysState) (id : Nat) : SysState :=
  { s with tasks := updTask s.tasks id (cancelTask s.now), now := s.now + 1 }

/-- Submission payload used by the concrete scenarios: a valid task with no
retry budget. -/
def cexD : TaskCreateData :=
  { name := "job", target_url := "https://example.com", task_type := "scrape",
    priority := 1, max_retries := 0 }

/-- Concrete state after submitting `cexD` to a capacity-1 pool. -/
def cexS1 : SysState := submitStep (initState 1) cexD

/-- Concrete state after dispatching the submitted task to slot 0. -/
def cexS2 : SysState := dispatchStep cexS1 0 0

/-- Concrete state after the only attempt fails with an exhausted retry
budget: the task is terminally `failed`. -/
def cexS3 : SysState := failFallbackStep cexS2 0 0 "boom"

/-- Concrete state after the dashboard's manual retry on the failed task. -/
def cexS4 : SysState := manualRetryStep cexS3 0

/-- The failed task of `cexS3`, written out. -/
def cexFailedTask : Task :=
  { id := 0, name := "job", target_url := "https://example.com",
    task_type := "scrape", priority := 1, status := TaskStatus.failed,
    retry_count := 0, max_retries := 0, worker_id := none, created_at := 0,
    started_at := some 1, completed_at := some 2,
    error_message := some "boom", items_scraped := 0,
    cancel_requested := false }

/-- A number input of the create-task form: its `min`/`max` attributes and the
initial value held in the modal's `useState` (`CreateTaskModal` in
`components/Layout.tsx`). -/
structure NumberField where
  lo : Int
  hi : Int
  initial : Int
deriving DecidableEq, Repr

/-- The priority input of `CreateTaskModal`: `min="0"`, `max="100"`, initial
form value `0`. -/
def priorityField : NumberField := { lo := 0, hi := 100, initial := 0 }

/-- The max-retries input of `CreateTaskModal`: `min="0"`, `max="10"`, initial
form value `3`. -/
def maxRetriesField : NumberField := { lo := 0, hi := 10, initial := 3 }

/-- The initial form data of `CreateTaskModal` (`useState` in
`components/Layout.tsx`): empty name and URL, `task_type` "scrape",
`priority` 0, `max_retries` 3. -/
def initialFormData : TaskCreateData :=
  { name := "", target_url := "", task_type := "scrape", priority := 0,
    max_retries := 3 }

/-- A numeric form value passes its input's constraint validation when it lies
within the declared `min`/`max` bounds. -/
def fieldOk (f : NumberField) (v : Int) : Bool :=
  decide (f.lo ≤ v) && decide (v ≤ f.hi)

/-- A create-task form submission passes the browser's constraint validation:
the two required text inputs are non-empty and the two number inputs are
within their declared bounds (`CreateTaskModal` in `components/Layout.tsx`). -/
def formOk (d : TaskCreateData) : Bool :=
  decide (¬ d.name = "") && decide (¬ d.target_url = "") &&
    fieldOk priorityField d.priority && fieldOk maxRetriesField d.max_retries

/-- The key order is decidable, so concrete queues can be checked by
evaluation. -/
instance : DecidableRel keyRel :=
  fun a b => inferInstanceAs (Decidable (keyLE a b = true))

/-- A healthy proxy used by the concrete proxy-pool scenarios. -/
def cexProxy : Proxy :=
  { address := "10.0.0.1", port := 8080, country := none, is_healthy := true,
    response_time := 100, success_rate := 90, total_requests := 10,
    consecutive_failures := 0 }

/-- An unhealthy proxy used by the concrete proxy-pool scenarios. -/
def cexBadProxy : Proxy :=
  { address := "10.0.0.2", port := 8080, country := none, is_healthy := false,
    response_time := 900, success_rate := 5, total_requests := 7,
    consecutive_failures := 4 }

/-- An empty scheduler used by the concrete submission scenario. -/
def schedInit : SchedState := { queue := [], next_id := 0, now := 0 }

/-- A filled create-task form used by the concrete form scenario. -/
def cexFormData : TaskCreateData :=
  { name := "job", target_url := "https://example.com",
    task_type := "scrape", priority := 5, max_retries := 2 }

theorem keyLE_total {a b : Task} (h : keyLE a b = false) : keyLE b a = true := by
  simp only [keyLE, Bool.or_eq_false_iff, Bool.and_eq_false_iff,
    decide_eq_false_iff_not, Bool.or_eq_true, Bool.and_eq_true,
    decide_eq_true_eq] at h ⊢
  omega

theorem keyLE_trans {a b c : Task} (h1 : keyLE a b = true)
    (h2 : keyLE b c = true) : keyLE a c = true := by
  simp only [keyLE, Bool.or_eq_true, Bool.and_eq_true, decide_eq_true_eq]
    at h1 h2 ⊢
  omega

theorem mem_enqueue {t v : Task} :
    ∀ {l : List Task}, v ∈ enqueue t l ↔ v = t ∨ v ∈ l := by
  intro l
  induction l with
  | nil => simp [enqueue]
  | cons u us ih =>
      by_cases h : keyLE t u = true
      · simp [enqueue, h]
      · simp only [enqueue]
        rw [if_neg h]
        simp only [List.mem_cons, ih]
        tauto

theorem enqueue_pairwise {t : Task} :
    ∀ {l : List Task}, l.Pairwise keyRel → (enqueue t l).Pairwise keyRel := by
  intro l
  induction l with
  | nil => intro _; simp [enqueue, keyRel]
  | cons u us ih =>
      intro hp
      rw [List.pairwise_cons] at hp
      obtain ⟨hu, hus⟩ := hp
      by_cases h : keyLE t u = true
      · have hcons : (u :: us).Pairwise keyRel :=
          List.pairwise_cons.2 ⟨hu, hus⟩
        have : (t :: u :: us).Pairwise keyRel := by
          refine List.pairwise_cons.2 ⟨?_, hcons⟩
          intro b hb
          rcases List.mem_cons.1 hb with rfl | hbus
          · exact h
          · exact keyLE_trans h (hu b hbus)
        simpa [enqueue, h] using this
      · have hrec : (enqueue t us).Pairwise keyRel := ih hus
        have hforall : ∀ b ∈ enqueue t us, keyRel u b := by
          intro b hb
          rcases mem_enqueue.1 hb with rfl | hbus
          · exact keyLE_total (Bool.eq_false_iff.2 fun hc => h hc)
          · exact hu b hbus
        have : (u :: enqueue t us).Pairwise keyRel :=
          List.pairwise_cons.2 ⟨hforall, hrec⟩
        simpa [enqueue, h] using this

theorem pickWeighted_mem :
    ∀ (l : List Proxy) (r : Nat), l ≠ [] →
      ∃ p, pickWeighted l r = some p ∧ p ∈ l := by
  intro l
  induction l with
  | nil => simp
  | cons p ps ih =>
      intro r _
      cases ps with
      | nil => exact ⟨p, rfl, by simp⟩
      | cons q qs =>
          by_cases h : r < weightOf p
          · exact ⟨p, by simp [pickWeighted, h], by simp⟩
          · obtain ⟨p', h1, h2⟩ := ih (r - weightOf p) (by simp)
            exact ⟨p', by simp [pickWeighted, h, h1], by simp [h2]⟩

theorem acquire_ok_of_healthy (pool : List Proxy) (excl : Option Proxy)
    (mand : Bool) (r : Nat)
    (h : pool.filter (fun p => p.is_healthy) ≠ []) :
    ∃ p, acquire pool excl mand r = Except.ok (some p) ∧
      p.is_healthy = true := by
  have hmem : ∀ p, p ∈ pool.filter (fun p => p.is_healthy) →
      p.is_healthy = true := by
    intro p hp
    exact (List.mem_filter.1 hp).2
  cases hh : pool.filter fun p => p.is_healthy with
  | nil => exact absurd hh h
  | cons a hs =>
      cases excl with
      | none =>
          obtain ⟨p, hp1, hp2⟩ := pickWeighted_mem (a :: hs) r (by simp)
          refine ⟨p, ?_, hmem p (hh ▸ hp2)⟩
          simp only [acquire, hh, hp1]
      | some e =>
          cases hr : (a :: hs).filter fun p => decide (¬ p = e) with
          | nil =>
              obtain ⟨p, hp1, hp2⟩ := pickWeighted_mem (a :: hs) r (by simp)
              refine ⟨p, ?_, hmem p (hh ▸ hp2)⟩
              simp only [acquire, hh, hr, hp1]
          | cons c cs =>
              obtain ⟨p, hp1, hp2⟩ := pickWeighted_mem (c :: cs) r (by simp)
              refine ⟨p, ?_, ?_⟩
              · simp only [acquire, hh, hr, hp1]
              · have : p ∈ (a :: hs).filter fun p => decide (¬ p = e) := by
                  rw [hr]
                  exact hp2
                exact hmem p (hh ▸ (List.mem_filter.1 this).1)

theorem acquire_error_of_none (pool : List Proxy) (excl : Option Proxy)
    (r : Nat) (h : pool.filter (fun p => p.is_healthy) = []) :
    acquire pool excl true r = Except.error ProxyError.noHealthyProxy := by
  simp [acquire, h]

theorem iterFail_unhealthy (th : Nat) :
    ∀ (n : Nat) (p : Proxy), 1 ≤ n → th ≤ p.consecutive_failures + n →
      (iterFail th n p).is_healthy = false := by
  intro n
  induction n with
  | zero => intro p h _; omega
  | succ m ih =>
      intro p _ hth
      cases m with
      | zero =>
          have hcond : th ≤ p.consecutive_failures + 1 := by omega
          simp [iterFail, report, hcond]
      | succ k =>
          have h1 : iterFail th (Nat.succ (Nat.succ k)) p
              = iterFail th (Nat.succ k) (report th p false 0) := rfl
          rw [h1]
          apply ih _ (by omega)
          have h2 : (report th p false 0).consecutive_failures
              = p.consecutive_failures + 1 := by
            simp [report]
          omega

theorem mem_updTask {ts : List Task} {id : Nat} {f : Task → Task} {v : Task} :
    v ∈ updTask ts id f ↔ ∃ u ∈ ts, v = if u.id = id then f u else u := by
  simp only [updTask, List.mem_map]
  constructor
  · rintro ⟨u, hu, rfl⟩
    exact ⟨u, hu, rfl⟩
  · rintro ⟨u, hu, rfl⟩
    exact ⟨u, hu, rfl⟩

theorem updTask_of_ne :
    ∀ (ts : List Task) (id : Nat) (f : Task → Task),
      (∀ u ∈ ts, ¬ u.id = id) → updTask ts id f = ts := by
  intro ts id f h
  induction ts with
  | nil => rfl
  | cons u us ih =>
      have hu : ¬ u.id = id := h u (List.mem_cons_self u us)
      have hus := ih fun v hv => h v (List.mem_cons_of_mem u hv)
      simp only [updTask, List.map_cons] at hus ⊢
      rw [if_neg hu, hus]

theorem find?_unique :
    ∀ (ts : List Task) (id : Nat) (t0 u : Task),
      (idsOf ts).Nodup → ts.find? (fun t => decide (t.id = id)) = some t0 →
      u ∈ ts → u.id = id → u = t0 := by
  intro ts id
  induction ts with
  | nil => intro t0 u _ hf; simp at hf
  | cons w ws ih =>
      intro t0 u hnd hf hu huid
      simp only [idsOf, List.map_cons, List.nodup_cons] at hnd
      obtain ⟨hw, hnd'⟩ := hnd
      by_cases hwid : w.id = id
      · have hp : (fun t => decide (t.id = id)) w = true := by
          simp [hwid]
        rw [@List.find?_cons_of_pos _ (fun t => decide (t.id = id)) w ws hp]
          at hf
        have hwt0 : w = t0 := by
          injection hf
        rcases List.mem_cons.1 hu with rfl | hus
        · exact hwt0
        · exfalso
          apply hw
          have : u.id ∈ List.map Task.id ws := List.mem_map_of_mem Task.id hus
          rw [huid] at this
          rw [hwid]
          exact this
      · have hp : ¬ (fun t => decide (t.id = id)) w = true := by
          simp [hwid]
        rw [@List.find?_cons_of_neg _ (fun t => decide (t.id = id)) w ws hp]
          at hf
        rcases List.mem_cons.1 hu with rfl | hus
        · exact absurd huid hwid
        · exact ih t0 u hnd' hf hus huid

theorem idsOf_updTask (ts : List Task) (id : Nat) (f : Task → Task)
    (hf : ∀ u, (f u).id = u.id) : idsOf (updTask ts id f) = idsOf ts := by
  simp only [idsOf, updTask, List.map_map]
  apply List.map_congr_left
  intro u _
  by_cases h : u.id = id
  · simp [Function.comp, h, hf]
  · simp [Function.comp, h]

theorem countRunning_cons (t : Task) (ts : List Task) :
    countRunning (t :: ts) = runFlag t + countRunning ts := by
  by_cases h : t.status = TaskStatus.running
  · simp [countRunning, runFlag, List.filter_cons, h]
    omega
  · simp [countRunning, runFlag, List.filter_cons, h]

theorem countRunning_updTask :
    ∀ (ts : List Task) (id : Nat) (f : Task → Task) (t0 : Task),
      (idsOf ts).Nodup → ts.find? (fun t => decide (t.id = id)) = some t0 →
      countRunning (updTask ts id f) + runFlag t0
        = countRunning ts + runFlag (f t0) := by
  intro ts id f
  induction ts with
  | nil => intro t0 _ hf; simp at hf
  | cons w ws ih =>
      intro t0 hnd hf
      simp only [idsOf, List.map_cons, List.nodup_cons] at hnd
      obtain ⟨hw, hnd'⟩ := hnd
      by_cases hwid : w.id = id
      · have hp : (fun t => decide (t.id = id)) w = true := by
          simp [hwid]
        rw [@List.find?_cons_of_pos _ (fun t => decide (t.id = id)) w ws hp]
          at hf
        have hwt0 : w = t0 := by injection hf
        subst hwt0
        have hws : updTask ws id f = ws := by
          apply updTask_of_ne
          intro v hv hvid
          apply hw
          have : v.id ∈ List.map Task.id ws := List.mem_map_of_mem Task.id hv
          rw [hvid] at this
          rw [hwid]
          exact this
        have hcons : updTask (w :: ws) id f = f w :: ws := by
          simp only [updTask, List.map_cons]
          rw [if_pos hwid]
          simp only [updTask] at hws
          rw [hws]
        rw [hcons, countRunning_cons, countRunning_cons]
        omega
      · have hp : ¬ (fun t => decide (t.id = id)) w = true := by
          simp [hwid]
        rw [@List.find?_cons_of_neg _ (fun t => decide (t.id = id)) w ws hp]
          at hf
        have hcons : updTask (w :: ws) id f = w :: updTask ws id f := by
          simp only [updTask, List.map_cons]
          rw [if_neg hwid]
        rw [hcons, countRunning_cons, countRunning_cons]
        have := ih t0 hnd' hf
        omega

theorem countBusy_cons (o : Option Nat) (os : List (Option Nat)) :
    countBusy (o :: os) = (if o.isSome then 1 else 0) + countBusy os := by
  cases o with
  | none => simp [countBusy, List.filter_cons]
  | some x =>
      simp [countBusy, List.filter_cons]
      omega

theorem countBusy_set_none :
    ∀ (slots : List (Option Nat)) (i x : Nat),
      slots.get? i = some (some x) →
      countBusy (slots.set i none) + 1 = countBusy slots := by
  intro slots
  induction slots with
  | nil => intro i x h; simp at h
  | cons o os ih =>
      intro i x h
      cases i with
      | zero =>
          simp only [List.get?] at h
          injection h with h0
          subst h0
          rw [List.set_cons_zero, countBusy_cons, countBusy_cons]
          simp
          omega
      | succ j =>
          simp only [List.get?] at h
          have := ih j x h
          rw [List.set_cons_succ, countBusy_cons, countBusy_cons]
          omega

theorem countBusy_set_some :
    ∀ (slots : List (Option Nat)) (i x : Nat),
      slots.get? i = some none →
      countBusy (slots.set i (some x)) = countBusy slots + 1 := by
  intro slots
  induction slots with
  | nil => intro i x h; simp at h
  | cons o os ih =>
      intro i x h
      cases i with
      | zero =>
          simp only [List.get?] at h
          injection h with h0
          subst h0
          rw [List.set_cons_zero, countBusy_cons, countBusy_cons]
          simp
          omega
      | succ j =>
          simp only [List.get?] at h
          have := ih j x h
          rw [List.set_cons_succ, countBusy_cons, countBusy_cons]
          omega

theorem countBusy_replicate (n : Nat) :
    countBusy (List.replicate n none) = 0 := by
  induction n with
  | zero => rfl
  | succ m ih =>
      rw [List.replicate_succ, countBusy_cons, ih]
      simp

theorem find?_updTask :
    ∀ (ts : List Task) (id0 id : Nat) (f : Task → Task),
      (∀ u, (f u).id = u.id) →
      (updTask ts id0 f).find? (fun t => decide (t.id = id)) =
        (ts.find? fun t => decide (t.id = id)).map
          fun u => if u.id = id0 then f u else u := by
  intro ts id0 id f hf
  induction ts with
  | nil => rfl
  | cons w ws ih =>
      have hgid : (if w.id = id0 then f w else w).id = w.id := by
        by_cases h : w.id = id0 <;> simp [h, hf]
      have hcons :
          updTask (w :: ws) id0 f
            = (if w.id = id0 then f w else w) :: updTask ws id0 f := by
        simp only [updTask, List.map_cons]
      by_cases hw : w.id = id
      · have hp1 : (fun t => decide (t.id = id))
            (if w.id = id0 then f w else w) = true := by
          show decide ((if w.id = id0 then f w else w).id = id) = true
          rw [hgid, hw]
          simp
        have hp2 : (fun t => decide (t.id = id)) w = true := by simp [hw]
        rw [hcons,
          @List.find?_cons_of_pos _ (fun t => decide (t.id = id))
            (if w.id = id0 then f w else w) (updTask ws id0 f) hp1,
          @List.find?_cons_of_pos _ (fun t => decide (t.id = id)) w ws hp2]
        simp
      · have hp1 : ¬ (fun t => decide (t.id = id))
            (if w.id = id0 then f w else w) = true := by
          show ¬ decide ((if w.id = id0 then f w else w).id = id) = true
          rw [hgid]
          simp [hw]
        have hp2 : ¬ (fun t => decide (t.id = id)) w = true := by simp [hw]
        rw [hcons,
          @List.find?_cons_of_neg _ (fun t => decide (t.id = id))
            (if w.id = id0 then f w else w) (updTask ws id0 f) hp1,
          @List.find?_cons_of_neg _ (fun t => decide (t.id = id)) w ws hp2]
        exact ih

theorem getTask_mem {s : SysState} {id : Nat} {t : Task}
    (h : getTask s id = some t) : t ∈ s.tasks ∧ t.id = id := by
  refine ⟨List.mem_of_find?_eq_some h, ?_⟩
  have := List.find?_some h
  simpa using this

theorem i1_pres (ts : List Task) (id : Nat) (f : Task → Task)
    (h1 : ∀ t ∈ ts, t.retry_count ≤ t.max_retries)
    (hf : ∀ u ∈ ts, u.id = id → (f u).retry_count ≤ (f u).max_retries) :
    ∀ t ∈ updTask ts id f, t.retry_count ≤ t.max_retries := by
  intro t ht
  rcases mem_updTask.1 ht with ⟨u, hu, hv⟩
  by_cases h : u.id = id
  · rw [hv, if_pos h]
    exact hf u hu h
  · rw [hv, if_neg h]
    exact h1 u hu

theorem statusOf_elim {s : SysState} {id : Nat} {st : TaskStatus}
    (h : statusOf s id = some st) :
    ∃ t, getTask s id = some t ∧ t.status = st ∧ t ∈ s.tasks ∧ t.id = id := by
  cases hg : getTask s id with
  | none => simp [statusOf, hg] at h
  | some t =>
      simp only [statusOf, hg, Option.map_some', Option.some.injEq] at h
      exact ⟨t, rfl, h, (getTask_mem hg).1, (getTask_mem hg).2⟩

theorem inv_upd (n : Nat) (s : SysState) (id : Nat) (f : Task → Task)
    (slots2 : List (Option Nat)) (t0 : Task) (hinv : Inv n s)
    (hg : getTask s id = some t0)
    (hfid : ∀ u, (f u).id = u.id)
    (hfrc : ∀ u ∈ s.tasks, u.id = id →
      (f u).retry_count ≤ (f u).max_retries)
    (hcount : countBusy slots2 + runFlag t0
      = countBusy s.slots + runFlag (f t0))
    (hlen : slots2.length = s.slots.length) :
    Inv n { s with tasks := updTask s.tasks id f, slots := slots2,
                   now := s.now + 1 } := by
  obtain ⟨h1, h2, h3, h4, h5⟩ := hinv
  have hfind : s.tasks.find? (fun t => decide (t.id = id)) = some t0 := hg
  refine ⟨?_, ?_, ?_, ?_, ?_⟩
  · exact i1_pres s.tasks id f h1 hfrc
  · show (idsOf (updTask s.tasks id f)).Nodup
    rw [idsOf_updTask s.tasks id f hfid]
    exact h2
  · intro x hx
    show x < s.next_id
    rw [show idsOf (updTask s.tasks id f) = idsOf s.tasks
      from idsOf_updTask s.tasks id f hfid] at hx
    exact h3 x hx
  · show countRunning (updTask s.tasks id f) = countBusy slots2
    have hcu := countRunning_updTask s.tasks id f t0 h2 hfind
    omega
  · show slots2.length = n
    rw [hlen]
    exact h5

theorem inv_init (n : Nat) : Inv n (initState n) := by
  refine ⟨?_, ?_, ?_, ?_, ?_⟩
  · intro t ht
    simp [initState] at ht
  · simp [initState, idsOf]
  · intro x hx
    simp [initState, idsOf] at hx
  · show countRunning ([] : List Task) = countBusy (List.replicate n none)
    rw [countBusy_replicate]
    rfl
  · show (List.replicate n (none : Option Nat)).length = n
    simp

theorem inv_step {n : Nat} {s s' : SysState} (hinv : Inv n s)
    (hstep : Step s s') : Inv n s' := by
  cases hstep with
  | submit d hv =>
      obtain ⟨h1, h2, h3, h4, h5⟩ := hinv
      refine ⟨?_, ?_, ?_, ?_, ?_⟩
      · intro t ht
        rcases List.mem_cons.1 ht with rfl | hts
        · show (0 : Nat) ≤ (newTask s.next_id s.now d).max_retries
          exact Nat.zero_le _
        · exact h1 t hts
      · show ((newTask s.next_id s.now d).id :: idsOf s.tasks).Nodup
        refine List.nodup_cons.2 ⟨?_, h2⟩
        intro hc
        have hlt := h3 _ hc
        have heq : (newTask s.next_id s.now d).id = s.next_id := rfl
        omega
      · intro x hx
        show x < s.next_id + 1
        rcases List.mem_cons.1 hx with rfl | hx'
        · show (newTask s.next_id s.now d).id < s.next_id + 1
          show s.next_id < s.next_id + 1
          omega
        · have := h3 x hx'
          omega
      · show countRunning (newTask s.next_id s.now d :: s.tasks)
          = countBusy s.slots
        rw [countRunning_cons]
        have h0 : runFlag (newTask s.next_id s.now d) = 0 := by
          simp [runFlag, newTask]
        omega
      · exact h5
  | dispatch id i hst hslot =>
      obtain ⟨t0, hg, hts, _, _⟩ := statusOf_elim hst
      simp only [dispatchStep]
      refine inv_upd n s id _ _ t0 hinv hg ?_ ?_ ?_ ?_
      · intro u
        rfl
      · intro u hu _
        exact hinv.1 u hu
      · have hset := countBusy_set_some s.slots i id hslot
        simp [runFlag, hts]
        omega
      · simp
  | completeSuccess id i items hst hw hslot =>
      obtain ⟨t0, hg, hts, _, _⟩ := statusOf_elim hst
      simp only [completeSuccessStep]
      refine inv_upd n s id _ _ t0 hinv hg ?_ ?_ ?_ ?_
      · intro u
        rfl
      · intro u hu _
        exact hinv.1 u hu
      · have hset := countBusy_set_none s.slots i id hslot
        simp [runFlag, hts]
        omega
      · simp
  | failRetry id i e hst hw hslot hrc =>
      obtain ⟨t0, hg, hts, _, _⟩ := statusOf_elim hst
      have hfind : s.tasks.find? (fun t => decide (t.id = id)) = some t0 := hg
      simp only [canRetry, hg, Option.map_some', Option.some.injEq,
        decide_eq_true_eq] at hrc
      simp only [failRetryStep]
      refine inv_upd n s id _ _ t0 hinv hg ?_ ?_ ?_ ?_
      · intro u
        rfl
      · intro u hu huid
        have hu0 : u = t0 :=
          find?_unique s.tasks id t0 u hinv.2.1 hfind hu huid
        subst hu0
        show u.retry_count + 1 ≤ u.max_retries
        omega
      · have hset := countBusy_set_none s.slots i id hslot
        simp [runFlag, hts]
        omega
      · simp
  | failFallback id i e hst hw hslot hrc =>
      obtain ⟨t0, hg, hts, _, _⟩ := statusOf_elim hst
      simp only [failFallbackStep]
      refine inv_upd n s id _ _ t0 hinv hg ?_ ?_ ?_ ?_
      · intro u
        rfl
      · intro u hu _
        exact hinv.1 u hu
      · have hset := countBusy_set_none s.slots i id hslot
        simp [runFlag, hts]
        omega
      · simp
  | cancelPending id hst =>
      obtain ⟨t0, hg, hts, _, _⟩ := statusOf_elim hst
      simp only [cancelPendingStep]
      refine inv_upd n s id _ _ t0 hinv hg ?_ ?_ ?_ ?_
      · intro u
        rfl
      · intro u hu _
        exact hinv.1 u hu
      · simp [runFlag, hts]
      · rfl
  | cancelRunning id hst =>
      obtain ⟨t0, hg, hts, _, _⟩ := statusOf_elim hst
      simp only [cancelRunningStep]
      refine inv_upd n s id _ _ t0 hinv hg ?_ ?_ ?_ ?_
      · intro u
        rfl
      · intro u hu _
        exact hinv.1 u hu
      · simp [runFlag, hts]
      · rfl
  | ackCancel id i hst hw hslot hcr =>
      obtain ⟨t0, hg, hts, _, _⟩ := statusOf_elim hst
      simp only [ackCancelStep]
      refine inv_upd n s id _ _ t0 hinv hg ?_ ?_ ?_ ?_
      · intro u
        rfl
      · intro u hu _
        exact hinv.1 u hu
      · have hset := countBusy_set_none s.slots i id hslot
        simp [runFlag, hts]
        omega
      · simp
  | manualRetry id hst =>
      obtain ⟨t0, hg, hts, _, _⟩ := statusOf_elim hst
      simp only [manualRetryStep]
      refine inv_upd n s id _ _ t0 hinv hg ?_ ?_ ?_ ?_
      · intro u
        rfl
      · intro u hu _
        exact hinv.1 u hu
      · simp [runFlag, hts]
      · rfl
  | abandon id i hst hw hslot =>
      obtain ⟨t0, hg, hts, _, _⟩ := statusOf_elim hst
      simp only [abandonStep]
      refine inv_upd n s id _ _ t0 hinv hg ?_ ?_ ?_ ?_
      · intro u
        rfl
      · intro u hu _
        exact hinv.1 u hu
      · have hset := countBusy_set_none s.slots i id hslot
        simp [runFlag, hts]
        omega
      · simp


theorem inv_reachable {n : Nat} {s : SysState} (h : Reachable n s) :
    Inv n s := by
  induction h with
  | init => exact inv_init n
  | step _ hst ih => exact inv_step ih hst

theorem getTask_tasks_eq {s2 s : SysState} {id0 : Nat} {f : Task → Task}
    (hts : s2.tasks = updTask s.tasks id0 f) (id : Nat)
    (hf : ∀ u, (f u).id = u.id) :
    getTask s2 id
      = (getTask s id).map fun u => if u.id = id0 then f u else u := by
  show s2.tasks.find? (fun t => decide (t.id = id)) = _
  rw [hts]
  exact find?_updTask s.tasks id0 id f hf

theorem terminal_untouched {s : SysState} {id id0 : Nat} {t t2 : Task}
    {f : Task → Task} {st : TaskStatus}
    (hst : statusOf s id0 = some st)
    (hterm : isTerminal t.status = true)
    (hstne : isTerminal st = false)
    (ht : getTask s id = some t)
    (hmap : (getTask s id).map (fun u => if u.id = id0 then f u else u)
      = some t2) :
    t2 = t := by
  rw [ht] at hmap
  simp only [Option.map_some', Option.some.injEq] at hmap
  by_cases h : t.id = id0
  · exfalso
    obtain ⟨t1, hg1, hts1, _, _⟩ := statusOf_elim hst
    have hid : t.id = id := (getTask_mem ht).2
    have hii : id = id0 := by rw [← hid, h]
    rw [← hii, ht] at hg1
    have ht1 : t = t1 := by injection hg1
    rw [← ht1] at hts1
    rw [hts1] at hterm
    rw [hterm] at hstne
    simp at hstne
  · rw [if_neg h] at hmap
    exact hmap.symm

theorem step_terminal_eq (f : Task → Task) {s s2 : SysState} {id0 : Nat}
    {st : TaskStatus} {id : Nat} {t t2 : Task}
    (hts : s2.tasks = updTask s.tasks id0 f)
    (hst : statusOf s id0 = some st)
    (hstne : isTerminal st = false)
    (hterm : isTerminal t.status = true)
    (ht : getTask s id = some t)
    (ht2 : getTask s2 id = some t2)
    (hf : ∀ u, (f u).id = u.id) : t2 = t := by
  have hup := getTask_tasks_eq hts id hf
  rw [hup] at ht2
  exact terminal_untouched hst hterm hstne ht ht2

theorem cancelTask_id (n : Nat) (t : Task) : (cancelTask n t).id = t.id := by
  cases h : t.status <;> simp [cancelTask, h]

theorem cancelTask_idem (t : Task) (n n' : Nat) :
    cancelTask n' (cancelTask n t) = cancelTask n t := by
  cases h : t.status <;> simp [cancelTask, h]

theorem cancelOp_tasks_idem (s : SysState) (id : Nat) :
    (cancelOp (cancelOp s id) id).tasks = (cancelOp s id).tasks := by
  show updTask (updTask s.tasks id (cancelTask s.now)) id
      (cancelTask (s.now + 1)) = updTask s.tasks id (cancelTask s.now)
  simp only [updTask, List.map_map]
  apply List.map_congr_left
  intro t _
  simp only [Function.comp_apply]
  by_cases h : t.id = id
  · rw [if_pos h]
    have hid : (cancelTask s.now t).id = t.id := cancelTask_id s.now t
    rw [if_pos (by rw [hid]; exact h)]
    exact cancelTask_idem t s.now (s.now + 1)
  · rw [if_neg h, if_neg h]

theorem cexS1_reachable : Reachable 1 cexS1 :=
  Reachable.step Reachable.init (Step.submit cexD (by decide))

theorem cexS2_reachable : Reachable 1 cexS2 :=
  Reachable.step cexS1_reachable (Step.dispatch 0 0 (by decide) (by decide))

theorem cexS3_reachable : Reachable 1 cexS3 :=
  Reachable.step cexS2_reachable
    (Step.failFallback 0 0 "boom" (by decide) (by decide) (by decide)
      (by decide))

/-- Claim C1: the retry state machine is a pure deterministic transition
function on a failed attempt — from `FAIL` it moves to `RETRY` exactly when
`retry_count < max_retries`, incrementing the count and computing a backoff of
`base_delay * 2^retry_count` capped at a maximum, and it moves to the terminal
fallback exactly when `retry_count = max_retries` (given the
`retry_count ≤ max_retries` invariant); consequently an always-failing
executor with `max_retries = 2` ends `failed` after exactly 3 attempts with
the last error preserved, and an executor failing twice then succeeding with
`max_retries = 3` ends `success` with `retry_count = 2`. -/
theorem C1_retry_state_machine :
    (∀ base cap rc mr : Nat,
      (onFail base cap rc mr
          = FailDecision.toRetry (rc + 1) (min (base * 2 ^ rc) cap)
        ↔ rc < mr)) ∧
    (∀ base cap rc mr : Nat, rc ≤ mr →
      (onFail base cap rc mr = FailDecision.toFallback ↔ rc = mr)) ∧
    runTask alwaysFail 2
      = { status := TaskStatus.failed, retry_count := 2, attempts := 3,
          error_message := some "fail2" } ∧
    runTask failTwice 3
      = { status := TaskStatus.success, retry_count := 2, attempts := 3,
          error_message := none } := by
  refine ⟨?_, ?_, by decide, by decide⟩
  · intro base cap rc mr
    by_cases h : rc < mr <;> simp [onFail, backoffDelay, h]
  · intro base cap rc mr hle
    by_cases h : rc < mr
    · simp only [onFail, if_pos h]
      constructor
      · intro hc
        exact absurd hc (by simp)
      · intro hc
        omega
    · simp only [onFail, if_neg h]
      constructor
      · intro _
        omega
      · intro _
        trivial

/-- Concrete instance of the `FAIL → FALLBACK` direction of `C1`. -/
theorem C1_retry_state_machine_witness :
    onFail 1 60 2 2 = FailDecision.toFallback ↔ 2 = 2 :=
  C1_retry_state_machine.2.1 1 60 2 2 (by decide)

/-- Claim C2: in every reachable state of the engine, every task satisfies
`retry_count ≤ max_retries` (and trivially `0 ≤ retry_count`); reachability
closes the invariant under every operation of the engine. -/
theorem C2_retry_count_invariant (n : Nat) (s : SysState)
    (hr : Reachable n s) : ∀ t ∈ s.tasks, t.retry_count ≤ t.max_retries :=
  (inv_reachable hr).1

/-- Concrete instance of `C2` in the reachable state holding one submitted
task. -/
theorem C2_retry_count_invariant_witness :
    (newTask 0 0 cexD).retry_count ≤ (newTask 0 0 cexD).max_retries :=
  C2_retry_count_invariant 1 cexS1 cexS1_reachable (newTask 0 0 cexD)
    (by decide)

/-- Claim C3: the scheduler's `next()` removes and returns the front of the
queue, which on a queue sorted by the priority key is a task of maximal
priority and, among those, earliest `created_at`; the empty queue yields a
normal empty-result signal (`none`, not an error); `enqueue` keeps the queue
sorted; and the three-task scenario with priorities `[1, 5, 1]` dispatches the
priority-5 task first and then the two priority-1 tasks in submission
order. -/
theorem C3_scheduler_next :
    (nextTask [] = none) ∧
    (∀ (q : List Task) (t : Task) (ts : List Task),
      q.Pairwise keyRel → nextTask q = some (t, ts) →
      q = t :: ts ∧ ∀ u ∈ q, keyRel t u) ∧
    (∀ (t : Task) (q : List Task),
      q.Pairwise keyRel → (enqueue t q).Pairwise keyRel) ∧
    (enqueue (mkPending 2 1 2) (enqueue (mkPending 1 5 1)
        (enqueue (mkPending 0 1 0) []))
      = [mkPending 1 5 1, mkPending 0 1 0, mkPending 2 1 2]) ∧
    (nextTask [mkPending 1 5 1, mkPending 0 1 0, mkPending 2 1 2]
      = some (mkPending 1 5 1, [mkPending 0 1 0, mkPending 2 1 2])) ∧
    (nextTask [mkPending 0 1 0, mkPending 2 1 2]
      = some (mkPending 0 1 0, [mkPending 2 1 2])) ∧
    (nextTask [mkPending 2 1 2] = some (mkPending 2 1 2, [])) := by
  refine ⟨rfl, ?_, ?_, by decide, rfl, rfl, rfl⟩
  · intro q t ts hp hn
    cases q with
    | nil => simp [nextTask] at hn
    | cons a as =>
        have hat : a = t ∧ as = ts := by
          simp only [nextTask, Option.some.injEq, Prod.mk.injEq] at hn
          exact hn
        obtain ⟨rfl, rfl⟩ := hat
        refine ⟨rfl, ?_⟩
        intro u hu
        rcases List.mem_cons.1 hu with rfl | hus
        · show keyLE u u = true
          simp [keyLE]
        · exact (List.pairwise_cons.1 hp).1 u hus
  · intro t q hp
    exact enqueue_pairwise hp

/-- Concrete instance of the head-is-maximal property of `C3` on the scenario
queue. -/
theorem C3_scheduler_next_witness :
    [mkPending 1 5 1, mkPending 0 1 0, mkPending 2 1 2]
        = mkPending 1 5 1 :: [mkPending 0 1 0, mkPending 2 1 2]
      ∧ ∀ u ∈ [mkPending 1 5 1, mkPending 0 1 0, mkPending 2 1 2],
          keyRel (mkPending 1 5 1) u :=
  C3_scheduler_next.2.1 [mkPending 1 5 1, mkPending 0 1 0, mkPending 2 1 2]
    (mkPending 1 5 1) [mkPending 0 1 0, mkPending 2 1 2] (by decide) rfl

/-- Claim C4: in every reachable state of the engine, the number of tasks with
status `running` is bounded by the worker-pool capacity; reachability closes
the bound under every operation of the engine. -/
theorem C4_running_bounded (n : Nat) (s : SysState) (hr : Reachable n s) :
    countRunning s.tasks ≤ n := by
  obtain ⟨_, _, _, h4, h5⟩ := inv_reachable hr
  have h6 : countBusy s.slots ≤ s.slots.length :=
    List.length_filter_le _ _
  omega

/-- Concrete instance of `C4` in the reachable state with one running task on
a capacity-1 pool. -/
theorem C4_running_bounded_witness : countRunning cexS2.tasks ≤ 1 :=
  C4_running_bounded 1 cexS2 cexS2_reachable

/-- Claim C5, counterexample: in a reachable state holding a task in the
terminal status `failed`, the dashboard's retry operation — offered by the
task list exactly for failed tasks — is a subsequent operation after which the
task's status is `pending` again, so a terminal task does re-enter `pending`
under an available operation. -/
theorem C5_counterexample :
    Reachable 1 cexS3 ∧ Step cexS3 cexS4 ∧
      (getTask cexS3 0).map Task.status = some TaskStatus.failed ∧
      isTerminal TaskStatus.failed = true ∧
      (getTask cexS4 0).map Task.status = some TaskStatus.pending :=
  ⟨cexS3_reachable, Step.manualRetry 0 (by decide), by decide, rfl, by decide⟩

/-- Claim C5 (amended): in every reachable state, a task in a terminal status
is left untouched by every operation of the engine except the dashboard's
manual retry, which re-enters a `failed` task as `pending`; in particular
terminal statuses are never left under dispatch, completion, the retry
transitions, cancellation or shutdown abandonment. -/
theorem C5_terminal_absorbing (n : Nat) (s s2 : SysState) (id : Nat)
    (t t2 : Task) (hr : Reachable n s) (hstep : Step s s2)
    (ht : getTask s id = some t) (hterm : isTerminal t.status = true)
    (ht2 : getTask s2 id = some t2) :
    t2 = t ∨ (t.status = TaskStatus.failed
      ∧ t2 = { t with status := TaskStatus.pending }) := by
  have hinv := inv_reachable hr
  obtain ⟨hmem, hid⟩ := getTask_mem ht
  cases hstep with
  | submit d hv =>
      left
      have hlt : t.id < s.next_id :=
        hinv.2.2.1 t.id (List.mem_map_of_mem Task.id hmem)
      have hne : ¬ (fun u => decide (u.id = id)) (newTask s.next_id s.now d)
          = true := by
        show ¬ decide ((newTask s.next_id s.now d).id = id) = true
        have hnid : (newTask s.next_id s.now d).id = s.next_id := rfl
        rw [hnid]
        simp
        omega
      have hsame : getTask (submitStep s d) id = getTask s id := by
        show List.find? (fun u => decide (u.id = id))
            (newTask s.next_id s.now d :: s.tasks) = _
        rw [@List.find?_cons_of_neg _ (fun u => decide (u.id = id))
          (newTask s.next_id s.now d) s.tasks hne]
        rfl
      rw [hsame, ht] at ht2
      have : t = t2 := by injection ht2
      exact this.symm
  | dispatch id0 i hst hslot =>
      exact Or.inl (step_terminal_eq
        (fun t => { t with status := TaskStatus.running, worker_id := some i, started_at := some s.now })
        rfl hst rfl hterm ht ht2 (fun u => rfl))
  | completeSuccess id0 i items hst hw hslot =>
      exact Or.inl (step_terminal_eq
        (fun t => { t with status := TaskStatus.success, worker_id := none, completed_at := some s.now, items_scraped := items })
        rfl hst rfl hterm ht ht2 (fun u => rfl))
  | failRetry id0 i e hst hw hslot hrc =>
      exact Or.inl (step_terminal_eq
        (fun t => { t with status := TaskStatus.pending, worker_id := none, retry_count := t.retry_count + 1, error_message := some e })
        rfl hst rfl hterm ht ht2 (fun u => rfl))
  | failFallback id0 i e hst hw hslot hrc =>
      exact Or.inl (step_terminal_eq
        (fun t => { t with status := TaskStatus.failed, worker_id := none, completed_at := some s.now, error_message := some e })
        rfl hst rfl hterm ht ht2 (fun u => rfl))
  | cancelPending id0 hst =>
      exact Or.inl (step_terminal_eq
        (fun t => { t with status := TaskStatus.cancelled, completed_at := some s.now })
        rfl hst rfl hterm ht ht2 (fun u => rfl))
  | cancelRunning id0 hst =>
      exact Or.inl (step_terminal_eq
        (fun t => { t with cancel_requested := true })
        rfl hst rfl hterm ht ht2 (fun u => rfl))
  | ackCancel id0 i hst hw hslot hcr =>
      exact Or.inl (step_terminal_eq
        (fun t => { t with status := TaskStatus.cancelled, worker_id := none, completed_at := some s.now })
        rfl hst rfl hterm ht ht2 (fun u => rfl))
  | abandon id0 i hst hw hslot =>
      exact Or.inl (step_terminal_eq
        (fun t => { t with status := TaskStatus.failed, worker_id := none, completed_at := some s.now, error_message := some "shutdown abandoned" })
        rfl hst rfl hterm ht ht2 (fun u => rfl))
  | manualRetry id0 hst =>
      have hup : getTask (manualRetryStep s id0) id
          = (getTask s id).map fun u =>
              if u.id = id0 then
                (fun t => { t with status := TaskStatus.pending }) u
              else u :=
        getTask_tasks_eq rfl id (fun u => rfl)
      rw [hup, ht] at ht2
      simp only [Option.map_some', Option.some.injEq] at ht2
      by_cases h : t.id = id0
      · right
        obtain ⟨t1, hg1, hts1, _, _⟩ := statusOf_elim hst
        have hii : id = id0 := by rw [← hid, h]
        rw [← hii, ht] at hg1
        have ht1 : t = t1 := by injection hg1
        refine ⟨by rw [ht1]; exact hts1, ?_⟩
        rw [if_pos h] at ht2
        exact ht2.symm
      · left
        rw [if_neg h] at ht2
        exact ht2.symm

/-- Concrete instance of the amended `C5` on the manual-retry step from the
failed state. -/
theorem C5_terminal_absorbing_witness :
    { cexFailedTask with status := TaskStatus.pending } = cexFailedTask
      ∨ (cexFailedTask.status = TaskStatus.failed
          ∧ ({ cexFailedTask with status := TaskStatus.pending } : Task)
            = { cexFailedTask with status := TaskStatus.pending }) :=
  C5_terminal_absorbing 1 cexS3 cexS4 0 cexFailedTask
    { cexFailedTask with status := TaskStatus.pending } cexS3_reachable
    (Step.manualRetry 0 (by decide)) (by decide) (by decide) (by decide)

/-- Claim C6: whenever at least one healthy proxy exists in the pool,
`acquire()` returns a proxy with `is_healthy = true` — never an unhealthy one
— for every random draw `r` of the weighted rotation policy and every
exclusion. -/
theorem C6_acquire_healthy (pool : List Proxy) (excl : Option Proxy)
    (mandatory : Bool) (r : Nat)
    (hne : pool.filter (fun p => p.is_healthy) ≠ []) :
    ∃ p, acquire pool excl mandatory r = Except.ok (some p)
      ∧ p.is_healthy = true :=
  acquire_ok_of_healthy pool excl mandatory r hne

/-- Concrete instance of `C6` on a pool with one unhealthy and one healthy
proxy. -/
theorem C6_acquire_healthy_witness :
    ∃ p, acquire [cexBadProxy, cexProxy] none true 0 = Except.ok (some p)
      ∧ p.is_healthy = true :=
  C6_acquire_healthy [cexBadProxy, cexProxy] none true 0 (by decide)

/-- Claim C7: with proxy use mandatory, `acquire()` fails with
`NoHealthyProxyError` exactly when zero healthy proxies exist; reporting a
streak of consecutive failures past the unhealthy threshold marks a proxy
unhealthy (so once every proxy has exceeded the threshold the pool has no
healthy proxy and `acquire()` keeps failing); and a successful probe restores
a proxy to healthy, after which `acquire()` succeeds again. -/
theorem C7_no_healthy_proxy (pool : List Proxy) (excl : Option Proxy)
    (r th nf : Nat) (p : Proxy) :
    (acquire pool excl true r = Except.error ProxyError.noHealthyProxy
      ↔ pool.filter (fun q => q.is_healthy) = []) ∧
    ((∀ q ∈ pool, q.is_healthy = false) →
      acquire pool excl true r = Except.error ProxyError.noHealthyProxy) ∧
    (1 ≤ th → th ≤ nf → (iterFail th nf p).is_healthy = false) ∧
    ((probe p true).is_healthy = true) ∧
    (p ∈ pool → p.is_healthy = true →
      ∃ q, acquire pool excl true r = Except.ok (some q)
        ∧ q.is_healthy = true) := by
  refine ⟨⟨?_, ?_⟩, ?_, ?_, ?_, ?_⟩
  · intro h
    by_contra hc
    obtain ⟨q, hq1, _⟩ := acquire_ok_of_healthy pool excl true r hc
    rw [h] at hq1
    simp at hq1
  · intro h
    exact acquire_error_of_none pool excl r h
  · intro h
    apply acquire_error_of_none
    rw [List.filter_eq_nil_iff]
    intro q hq
    simp [h q hq]
  · intro h1 h2
    exact iterFail_unhealthy th nf p (by omega) (by omega)
  · simp [probe]
  · intro hp hh
    apply acquire_ok_of_healthy
    intro hc
    have hm : p ∈ pool.filter fun q => q.is_healthy :=
      List.mem_filter.2 ⟨hp, hh⟩
    rw [hc] at hm
    simp at hm

/-- Concrete instance of the threshold part of `C7`: one failure past a
threshold of one makes the proxy unhealthy. -/
theorem C7_no_healthy_proxy_witness :
    (iterFail 1 1 cexProxy).is_healthy = false :=
  (C7_no_healthy_proxy [] none 0 1 1 cexProxy).2.2.1 (by decide) (by decide)

/-- Claim C8: `submit` returns a task with a fresh unique id and status
`pending` when `max_retries ≥ 0`, the priority is within the bounded range and
the target URL is non-empty, and the accepted task enters the queue; otherwise
it fails synchronously with a `ValidationError` and the scheduler state —
including the queue — is unchanged. -/
theorem C8_submit_validation (s : SchedState) (d : TaskCreateData)
    (hfresh : ∀ u ∈ s.queue, u.id < s.next_id) :
    (validCreate d = true →
      ∃ t, (submit s d).1 = Except.ok t ∧ t.status = TaskStatus.pending
        ∧ t.id = s.next_id ∧ (∀ u ∈ s.queue, ¬ u.id = t.id)
        ∧ (submit s d).2.queue = enqueue t s.queue
        ∧ t ∈ (submit s d).2.queue) ∧
    (validCreate d = false →
      (submit s d).1 = Except.error SubmitError.validationError
        ∧ (submit s d).2 = s) := by
  constructor
  · intro hv
    refine ⟨newTask s.next_id s.now d, ?_, rfl, rfl, ?_, ?_, ?_⟩
    · simp [submit, hv]
    · intro u hu hc
      have hul := hfresh u hu
      have h2 : (newTask s.next_id s.now d).id = s.next_id := rfl
      rw [hc, h2] at hul
      omega
    · simp [submit, hv]
    · rw [show (submit s d).2.queue
          = enqueue (newTask s.next_id s.now d) s.queue from by
        simp [submit, hv]]
      exact mem_enqueue.2 (Or.inl rfl)
  · intro hv
    constructor
    · simp [submit, hv]
    · simp [submit, hv]

/-- Concrete instance of the accepting branch of `C8` on an empty
scheduler. -/
theorem C8_submit_validation_witness :
    ∃ t, (submit schedInit cexD).1 = Except.ok t
      ∧ t.status = TaskStatus.pending ∧ t.id = schedInit.next_id
      ∧ (∀ u ∈ schedInit.queue, ¬ u.id = t.id)
      ∧ (submit schedInit cexD).2.queue = enqueue t schedInit.queue
      ∧ t ∈ (submit schedInit cexD).2.queue :=
  (C8_submit_validation schedInit cexD (by decide)).1 (by decide)

/-- Claim C9: `cancel` is idempotent — at the task level a second
cancellation, at any later time, leaves the task exactly as the first one did
(status, timestamps and error fields included), and at the engine level the
task table after two cancellations equals the table after one. -/
theorem C9_cancel_idempotent :
    (∀ (t : Task) (n n2 : Nat),
      cancelTask n2 (cancelTask n t) = cancelTask n t) ∧
    (∀ (s : SysState) (id : Nat),
      (cancelOp (cancelOp s id) id).tasks = (cancelOp s id).tasks) :=
  ⟨fun t n n2 => cancelTask_idem t n n2, fun s id => cancelOp_tasks_idem s id⟩

/-- Claim C10: a create-task form submission that passes the form's declared
input bounds carries `priority` in `0..100` and `max_retries` in `0..10`, and
the untouched form carries `task_type = "scrape"`, `priority = 0` and
`max_retries = 3`. -/
theorem C10_form_bounds_and_defaults :
    (∀ d : TaskCreateData, formOk d = true →
      (0 : Int) ≤ d.priority ∧ d.priority ≤ 100 ∧
      (0 : Int) ≤ d.max_retries ∧ d.max_retries ≤ 10) ∧
    priorityField.lo = 0 ∧ priorityField.hi = 100 ∧
    maxRetriesField.lo = 0 ∧ maxRetriesField.hi = 10 ∧
    initialFormData.task_type = "scrape" ∧ initialFormData.priority = 0 ∧
    initialFormData.max_retries = 3 := by
  refine ⟨?_, rfl, rfl, rfl, rfl, rfl, rfl, rfl⟩
  intro d hd
  simp only [formOk, fieldOk, priorityField, maxRetriesField,
    Bool.and_eq_true, decide_eq_true_eq] at hd
  omega

/-- Concrete instance of the bounds part of `C10` on a filled form. -/
theorem C10_form_bounds_and_defaults_witness :
    (0 : Int) ≤ cexFormData.priority ∧ cexFormData.priority ≤ 100 ∧
    (0 : Int) ≤ cexFormData.max_retries ∧ cexFormData.max_retries ≤ 10 :=
  C10_form_bounds_and_defaults.1 cexFormData (by decide)

end RPAFlow
